import Mathlib

/-!
Shallow embedding of the document-chunking / vector-retrieval subsystem of a
Chinese financial-regulation retrieval-augmented QA pipeline.

The embedding covers:
* the fixed-size fallback splitter `VectorDatabase._split_document` (vector_db.py),
* the structure-aware splitter `_split_document` (backups/rag_engine_backup.py),
* the vector-database lifecycle `build_from_documents` / `save_to_disk` /
  `load_from_disk` / `search` (vector_db.py),
* the multi-stage multiple-choice answer extractor `extract_choice_answer`
  (main_optimized.py).

Text is modelled as `List Char`.  Python regular expressions are embedded as
bespoke executable matchers that implement the exact pattern used at each call
site (leftmost search, greedy/lazy subpattern semantics as analysed per
pattern).  Python's `re` treats CJK ideographs as word characters; the word
class is modelled as ASCII alphanumerics, underscore, and the CJK unified
ideograph block, which covers every character class the embedded code touches.
-/

namespace FinanceRag

/-! ## Python string primitives -/

/-- Characters removed by Python `str.strip()` and matched by the regex class
`\s` (ASCII whitespace; the embedded code never contains other Unicode
whitespace). -/
def isPySpace (c : Char) : Bool :=
  c = ' ' || c = '\t' || c = '\n' || c = '\r' || c = '\x0b' || c = '\x0c'

/-- Python `str.strip()`. -/
def pyStrip (s : List Char) : List Char :=
  ((s.dropWhile isPySpace).reverse.dropWhile isPySpace).reverse

/-- Python `str.upper()` restricted to ASCII letters; all characters in the
embedded code's inputs outside ASCII are CJK and unchanged by `upper`. -/
def pyUpperChar (c : Char) : Char :=
  if 'a' ≤ c ∧ c ≤ 'z' then Char.ofNat (c.toNat - 32) else c

/-- Python `str.lower()` restricted to ASCII letters. -/
def pyLowerChar (c : Char) : Char :=
  if 'A' ≤ c ∧ c ≤ 'Z' then Char.ofNat (c.toNat + 32) else c

def pyUpper (s : List Char) : List Char := s.map pyUpperChar

def pyLower (s : List Char) : List Char := s.map pyLowerChar

/-- Python slice `s[a:b]` (for `a ≤ b`; out-of-range indices clamp). -/
def pySlice (s : List Char) (a b : Nat) : List Char := (s.take b).drop a

/-- Python substring containment `needle in hay`. -/
def isSubstr (needle : List Char) : List Char → Bool
  | [] => needle.isEmpty
  | c :: rest => needle.isPrefixOf (c :: rest) || isSubstr needle rest

/-! ## Decimal rendering of naturals (Python `str(i)` inside f-strings) -/

/-- The decimal digit character for `d < 10`. -/
def digitChar : Nat → Char
  | 0 => '0' | 1 => '1' | 2 => '2' | 3 => '3' | 4 => '4'
  | 5 => '5' | 6 => '6' | 7 => '7' | 8 => '8' | 9 => '9'
  | _ => '*'

def digitVal (c : Char) : Nat := c.toNat - 48

/-- Decimal digits of `n`, least significant first. -/
def natDigitsRev (n : Nat) : List Char :=
  if h : n < 10 then [digitChar n]
  else digitChar (n % 10) :: natDigitsRev (n / 10)
termination_by n
decreasing_by exact Nat.div_lt_self (by omega) (by omega)

/-- Python `str(n)` for a natural number. -/
def natToString (n : Nat) : List Char := (natDigitsRev n).reverse

/-- Value of a least-significant-first digit list. -/
def digitsRevVal : List Char → Nat
  | [] => 0
  | c :: rest => digitVal c + 10 * digitsRevVal rest

theorem digitVal_digitChar {d : Nat} (h : d < 10) : digitVal (digitChar d) = d := by
  interval_cases d <;> decide

theorem digitChar_ne_underscore {d : Nat} (h : d < 10) : digitChar d ≠ '_' := by
  interval_cases d <;> decide

theorem digitsRevVal_natDigitsRev (n : Nat) : digitsRevVal (natDigitsRev n) = n := by
  induction n using Nat.strong_induction_on with
  | _ n ih =>
    rw [natDigitsRev]
    by_cases h : n < 10
    · simp only [h, dif_pos, digitsRevVal, digitVal_digitChar h]
      omega
    · simp only [h, dif_neg, not_false_iff, digitsRevVal]
      rw [digitVal_digitChar (Nat.mod_lt _ (by omega)),
        ih (n / 10) (Nat.div_lt_self (by omega) (by omega))]
      omega

theorem natDigitsRev_inj {m n : Nat} (h : natDigitsRev m = natDigitsRev n) : m = n := by
  have := digitsRevVal_natDigitsRev m
  rw [h, digitsRevVal_natDigitsRev] at this
  omega

theorem natToString_inj {m n : Nat} (h : natToString m = natToString n) : m = n :=
  natDigitsRev_inj (List.reverse_injective h)

theorem natDigitsRev_ne_underscore (n : Nat) : ∀ c ∈ natDigitsRev n, c ≠ '_' := by
  induction n using Nat.strong_induction_on with
  | _ n ih =>
    rw [natDigitsRev]
    by_cases h : n < 10
    · simp only [h, dif_pos, List.mem_singleton]
      rintro c rfl
      exact digitChar_ne_underscore h
    · simp only [h, dif_neg, not_false_iff, List.mem_cons]
      rintro c (rfl | hc)
      · exact digitChar_ne_underscore (Nat.mod_lt _ (by omega))
      · exact ih (n / 10) (Nat.div_lt_self (by omega) (by omega)) c hc

theorem natToString_ne_underscore (n : Nat) : ∀ c ∈ natToString n, c ≠ '_' := by
  intro c hc
  exact natDigitsRev_ne_underscore n c (List.mem_reverse.mp hc)

/-- If neither block contains the separator, splitting at the separator is
unambiguous. -/
theorem underscore_split {a1 a2 r1 r2 : List Char}
    (h1 : ∀ c ∈ a1, c ≠ '_') (h2 : ∀ c ∈ a2, c ≠ '_')
    (h : a1 ++ '_' :: r1 = a2 ++ '_' :: r2) : a1 = a2 ∧ r1 = r2 := by
  induction a1 generalizing a2 with
  | nil =>
    cases a2 with
    | nil => simpa using h
    | cons b bs =>
      exfalso
      have hb : b = '_' := by simpa using (congrArg (fun l => l.headD ' ') h).symm
      exact h2 b (List.mem_cons_self _ _) hb
  | cons a as ih =>
    cases a2 with
    | nil =>
      exfalso
      have ha : a = '_' := by simpa using congrArg (fun l => l.headD ' ') h
      exact h1 a (List.mem_cons_self _ _) ha
    | cons b bs =>
      simp only [List.cons_append, List.cons.injEq] at h
      obtain ⟨rfl, htl⟩ := h
      have := ih (fun c hc => h1 c (List.mem_cons_of_mem _ hc))
        (fun c hc => h2 c (List.mem_cons_of_mem _ hc)) htl
      exact ⟨by rw [this.1], this.2⟩

/-! ## Python `dict` built by a comprehension (insertion-ordered, later keys
overwrite in place) -/

def dictInsert {α : Type} [DecidableEq α] {β : Type}
    (d : List (α × β)) (k : α) (v : β) : List (α × β) :=
  if d.any (fun p => p.1 = k) then
    d.map (fun p => if p.1 = k then (k, v) else p)
  else d ++ [(k, v)]

def dictOfList {α : Type} [DecidableEq α] {β : Type}
    (l : List (α × β)) : List (α × β) :=
  l.foldl (fun d p => dictInsert d p.1 p.2) []

theorem dictOfList_go {α : Type} [DecidableEq α] {β : Type} :
    ∀ (l acc : List (α × β)), ((acc ++ l).map Prod.fst).Nodup →
      l.foldl (fun d p => dictInsert d p.1 p.2) acc = acc ++ l := by
  intro l
  induction l with
  | nil => intro acc _; simp
  | cons p rest ih =>
    intro acc hacc
    have hnotin : acc.any (fun q => q.1 = p.1) = false := by
      rw [List.any_eq_false]
      intro q hq
      simp only [decide_eq_true_eq]
      intro hqp
      have h1 : q.1 ∈ (acc.map Prod.fst) := List.mem_map_of_mem _ hq
      have h2 : q.1 ∈ ((p :: rest).map Prod.fst) := by simp [hqp]
      have hd := (List.nodup_append.mp (by simpa using hacc)).2.2
      exact hd h1 (by simpa using h2)
    simp only [List.foldl_cons, dictInsert, hnotin, Bool.false_eq_true, if_false]
    have := ih (acc ++ [(p.1, p.2)]) (by simpa using hacc)
    simpa using this

theorem dictOfList_eq_self {α : Type} [DecidableEq α] {β : Type}
    (l : List (α × β)) (h : (l.map Prod.fst).Nodup) : dictOfList l = l := by
  simpa [dictOfList] using dictOfList_go l [] (by simpa using h)

/-! ## `VectorDatabase._split_document` (vector_db.py lines 190-218): the
fixed-size fallback splitter with separator back-search -/

structure Config where
  chunkSize : Nat
  chunkOverlap : Nat
  topK : Nat
  indexType : List Char

/-- The separators tried, in order, by the fallback splitter:
`['\n\n', '\n', '。', '！', '？', ';', '.']`. -/
def vdbSeps : List (List Char) :=
  [('\n' :: '\n' :: []), ['\n'], ['。'], ['！'], ['？'], [';'], ['.']]

/-- Python `content.rfind(sub, start, stop)`: the largest index of an
occurrence of `sub` lying entirely inside `content[start:stop]`, if any. -/
def rfindSub (content sub : List Char) (start stop : Nat) : Option Nat :=
  ((List.range (content.length + 1)).filter
    (fun i => decide (start ≤ i) && decide (i + sub.length ≤ min stop content.length) &&
      sub.isPrefixOf (content.drop i))).getLast?

/-- The window end chosen for one iteration: `start + chunk_size`, moved back
to just after the last separator found strictly beyond `start` (first
separator in `vdbSeps` order that has such an occurrence wins). -/
def vdbChunkEnd (cfg : Config) (content : List Char) (start : Nat) : Nat :=
  let e := start + cfg.chunkSize
  if e < content.length then
    match vdbSeps.findSome? (fun sep =>
      match rfindSub content sep start e with
      | some p => if start < p then some (p + sep.length) else none
      | none => none) with
    | some e2 => e2
    | none => e
  else e

/-- The `while start < len(content)` loop of `_split_document`; the next start
is `max(start + 1, end - chunk_overlap)`, which strictly increases. -/
def vdbSplitLoop (cfg : Config) (content : List Char) (start : Nat)
    (acc : List (List Char)) : List (List Char) :=
  if h : start < content.length then
    let e := vdbChunkEnd cfg content start
    let chunk := pyStrip (pySlice content start e)
    let acc2 := if chunk.isEmpty then acc else acc ++ [chunk]
    vdbSplitLoop cfg content (max (start + 1) (e - cfg.chunkOverlap)) acc2
  else acc
termination_by content.length - start
decreasing_by simp_wf; omega

/-- Fuel-indexed variant of the same loop: `none` means the fuel ran out
before the loop condition became false. -/
def vdbSplitLoopF (cfg : Config) (content : List Char) :
    Nat → Nat → List (List Char) → Option (List (List Char))
  | 0, start, acc => if start < content.length then none else some acc
  | fuel + 1, start, acc =>
    if start < content.length then
      let e := vdbChunkEnd cfg content start
      let chunk := pyStrip (pySlice content start e)
      let acc2 := if chunk.isEmpty then acc else acc ++ [chunk]
      vdbSplitLoopF cfg content fuel (max (start + 1) (e - cfg.chunkOverlap)) acc2
    else some acc

/-- `VectorDatabase._split_document`: texts no longer than `chunk_size` are
returned whole (with no minimum-length filter); longer texts go through the
window loop. -/
def vdbSplitDocument (cfg : Config) (content : List Char) : List (List Char) :=
  if content.length ≤ cfg.chunkSize then [content]
  else vdbSplitLoop cfg content 0 []

theorem vdbSplitLoopF_sufficient (cfg : Config) (content : List Char) :
    ∀ fuel start acc, content.length ≤ start + fuel →
      vdbSplitLoopF cfg content fuel start acc = some (vdbSplitLoop cfg content start acc) := by
  intro fuel
  induction fuel with
  | zero =>
    intro start acc h
    have hge : ¬ start < content.length := by omega
    rw [vdbSplitLoop]
    simp [vdbSplitLoopF, hge]
  | succ n ih =>
    intro start acc h
    rw [vdbSplitLoop, vdbSplitLoopF]
    by_cases hlt : start < content.length
    · simp only [hlt, if_true, dif_pos]
      exact ih _ _ (by omega)
    · simp [hlt]

/-! ## VectorDatabase (vector_db.py): state, disk artifacts, lifecycle

Vectors are modelled as integer lists (`List Int`); the embedding model,
content hash and creation timestamp are external inputs and are passed in a
context record.  `encode_texts` batches plus `np.vstack` reduce to mapping the
embedding over the texts, except that `np.vstack([])` raises, so encoding an
empty text list is an error.  FAISS `IndexFlatIP` is modelled as the list of
its rows; its `search` scores rows by inner product, highest first, ties by
lower row index. -/

deriving instance DecidableEq for Except

structure VdbDoc where
  text : List Char
  metadata : List (List Char × List Char)
deriving DecidableEq

structure ChunkMeta where
  chunkId : List Char
  docIndex : Nat
  chunkIndex : Nat
  text : List Char
  docMetadata : List (List Char × List Char)
  contentHash : List Char
deriving DecidableEq

structure VdbMetaData where
  totalVectors : Nat
  vectorDimension : Nat
  indexType : List Char
  createdAt : List Char
  documentCount : Nat
deriving DecidableEq

/-- In-memory state of a `VectorDatabase` instance.  `vectorMetadata` starts
as the empty record (Python starts with `{}`, whose `.get(_, 0)` defaults
agree with the zero record). -/
structure VdbState where
  index : Option (List (List Int))
  documentStore : List (List Char × ChunkMeta)
  vectorMetadata : VdbMetaData
  isLoaded : Bool
deriving DecidableEq

/-- The three persisted artifacts (`None` = file absent). -/
structure VdbDisk where
  faissIndexFile : Option (List (List Int))
  metadataFile : Option VdbMetaData
  documentStoreFile : Option (List (List Char × ChunkMeta))
deriving DecidableEq

/-- External inputs of the lifecycle: configuration, embedding model, content
hash (`hashlib.md5`), and the creation timestamp. -/
structure VdbContext where
  cfg : Config
  embed : List Char → List Int
  md5 : List Char → List Char
  now : List Char

def emptyVdbMetaData : VdbMetaData := ⟨0, 0, [], [], 0⟩

/-- `VectorDatabase.__init__`: no index, empty stores, not loaded. -/
def vdbInit : VdbState := ⟨none, [], emptyVdbMetaData, false⟩

/-- `encode_texts`: one vector per text; `np.vstack` on the empty batch list
raises, so the empty input is an error.  L2 normalization is folded into the
external `embed`. -/
def encode_texts (ctx : VdbContext) (texts : List (List Char)) :
    Except Unit (List (List Int)) :=
  if texts.isEmpty then Except.error () else Except.ok (texts.map ctx.embed)

/-- The chunk id f-string `doc_{doc_idx}_chunk_{chunk_idx}`. -/
def chunkIdStr (d c : Nat) : List Char :=
  ("doc_".toList) ++ natToString d ++ ("_chunk_".toList) ++ natToString c

/-- The per-document part of the chunking loop in `build_from_documents`:
split, then keep each chunk whose `strip()` is non-empty, paired with its
metadata record.  `chunk_idx` comes from `enumerate` before the filter, and
the unstripped chunk text is what is stored and encoded. -/
def docChunks (ctx : VdbContext) (di : Nat) (doc : VdbDoc) : List ChunkMeta :=
  (vdbSplitDocument ctx.cfg doc.text).enum.filterMap (fun p =>
    if (pyStrip p.2).isEmpty then none
    else some ⟨chunkIdStr di p.1, di, p.1, p.2, doc.metadata, ctx.md5 p.2⟩)

def allChunkMetas (ctx : VdbContext) (docs : List VdbDoc) : List ChunkMeta :=
  (docs.enum.map (fun p => docChunks ctx p.1 p.2)).flatten

/-- Failure points inside `save_to_disk`'s try block: an exception while
writing the index, the metadata, or the document store. -/
inductive SaveFail | atIndex | atMetadata | atStore
deriving DecidableEq

/-- `save_to_disk`: writes the FAISS index, then the metadata JSON, then the
document-store JSON, each directly to its final path; an exception is caught
and `False` returned, leaving whatever was already written in place.  Writing
a `None` index raises before anything is written. -/
def save_to_disk (s : VdbState) (d : VdbDisk) (failAt : Option SaveFail) :
    VdbDisk × Bool :=
  match s.index, failAt with
  | none, _ => (d, false)
  | some _, some .atIndex => (d, false)
  | some idx, some .atMetadata => ({ d with faissIndexFile := some idx }, false)
  | some idx, some .atStore =>
      ({ d with faissIndexFile := some idx, metadataFile := some s.vectorMetadata }, false)
  | some idx, none => (⟨some idx, some s.vectorMetadata, some s.documentStore⟩, true)

/-- `can_load_existing`: all three artifact files exist. -/
def can_load_existing (d : VdbDisk) : Bool :=
  d.faissIndexFile.isSome && d.metadataFile.isSome && d.documentStoreFile.isSome

/-- `load_from_disk`: if any artifact is missing, report failure; otherwise
read all three and mark the state loaded.  No consistency check is performed
between the index row count and the store size. -/
def load_from_disk (s : VdbState) (d : VdbDisk) : VdbState × Bool :=
  match d.faissIndexFile, d.metadataFile, d.documentStoreFile with
  | some idx, some md, some st => (⟨some idx, st, md, true⟩, true)
  | _, _, _ => (s, false)

/-- `_should_incremental_update`: `len(documents) <= document_count * 1.1`
(rational form of the float comparison). -/
def _should_incremental_update (s : VdbState) (docs : List VdbDoc) : Bool :=
  docs.length * 10 ≤ s.vectorMetadata.documentCount * 11

/-- The full-rebuild body of `build_from_documents`: chunk every document,
encode, replace index/store/metadata, persist (ignoring the save result, as
the source does), set `is_loaded`, return `True`.  An encoding exception
(`np.vstack` on zero chunks) propagates before any state mutation. -/
def buildFull (ctx : VdbContext) (docs : List VdbDoc) (s : VdbState)
    (d : VdbDisk) (failAt : Option SaveFail) :
    VdbState × VdbDisk × Except Unit Bool :=
  let metas := allChunkMetas ctx docs
  match encode_texts ctx (metas.map (fun m => m.text)) with
  | Except.error e => (s, d, Except.error e)
  | Except.ok vectors =>
    let s1 : VdbState :=
      { index := some vectors,
        documentStore := dictOfList (metas.map (fun m => (m.chunkId, m))),
        vectorMetadata :=
          { totalVectors := vectors.length,
            vectorDimension := (vectors.headD []).length,
            indexType := ctx.cfg.indexType,
            createdAt := ctx.now,
            documentCount := docs.length },
        isLoaded := false }
    let d1 := (save_to_disk s1 d failAt).1
    ({ s1 with isLoaded := true }, d1, Except.ok true)

/-- `build_from_documents`: the incremental-update path
(`_incremental_update`) immediately recurses with `force_rebuild=True`, i.e.
performs the same full rebuild. -/
def build_from_documents (ctx : VdbContext) (docs : List VdbDoc)
    (forceRebuild : Bool) (s : VdbState) (d : VdbDisk) (failAt : Option SaveFail) :
    VdbState × VdbDisk × Except Unit Bool :=
  if !forceRebuild && can_load_existing d && _should_incremental_update s docs then
    buildFull ctx docs s d failAt
  else
    buildFull ctx docs s d failAt

/-! ### search -/

def dotInt (a b : List Int) : Int :=
  (a.zip b).foldl (fun acc p => acc + p.1 * p.2) 0

/-- FAISS `IndexFlatIP.search` for one query: every row scored by inner
product, ordered by descending score with ties broken by lower row index,
truncated to `k` (rows beyond `ntotal` are the `-1` padding the caller drops). -/
def topKSearch (rows : List (List Int)) (q : List Int) (k : Nat) :
    List (Nat × Int) :=
  (List.insertionSort
    (fun x y : Nat × Int => y.2 < x.2 ∨ (x.2 = y.2 ∧ x.1 ≤ y.1))
    (rows.enum.map (fun p => (p.1, dotInt q p.2)))).take k

structure SearchResult where
  chunkId : List Char
  text : List Char
  score : Int
  metadata : List (List Char × List Char)
  chunkIndex : Nat
deriving DecidableEq

/-- `search`: raises (`ValueError`) when not loaded or the index is `None`;
otherwise encodes the query, searches the index, and maps each returned row
index to the store entry at the same position (`list(keys())[idx]`; an
out-of-range row would raise `IndexError`, modelled as an error). -/
def vdbSearch (ctx : VdbContext) (s : VdbState) (queryText : List Char)
    (topK? : Option Nat) : Except Unit (List SearchResult) :=
  if !s.isLoaded then Except.error ()
  else
    match s.index with
    | none => Except.error ()
    | some rows =>
      let k := topK?.getD ctx.cfg.topK
      match encode_texts ctx [queryText] with
      | Except.error _ => Except.error ()
      | Except.ok qvs =>
        match (topKSearch rows (qvs.headD []) k).mapM (fun h =>
          (s.documentStore.get? h.1).map (fun e =>
            ({ chunkId := e.1, text := e.2.text, score := h.2,
               metadata := e.2.docMetadata, chunkIndex := e.2.chunkIndex } : SearchResult))) with
        | some rs => Except.ok rs
        | none => Except.error ()

/-! ### Distinctness of chunk ids generated by a build -/

theorem chunkIdStr_inj {d1 c1 d2 c2 : Nat}
    (h : chunkIdStr d1 c1 = chunkIdStr d2 c2) : d1 = d2 ∧ c1 = c2 := by
  unfold chunkIdStr at h
  rw [List.append_assoc, List.append_assoc, List.append_assoc, List.append_assoc] at h
  have h2 := List.append_cancel_left h
  have hck : ("_chunk_".toList) = '_' :: ("chunk_".toList) := rfl
  rw [hck] at h2
  simp only [List.cons_append] at h2
  have hsp := underscore_split (natToString_ne_underscore d1)
    (natToString_ne_underscore d2) h2
  refine ⟨natToString_inj hsp.1, ?_⟩
  exact natToString_inj (List.append_cancel_left hsp.2)

theorem pairwise_fst_lt_enumFrom {α : Type} (l : List α) :
    ∀ n : Nat, (l.enumFrom n).Pairwise (fun a b => a.1 < b.1) := by
  induction l with
  | nil => intro n; simp
  | cons x xs ih =>
    intro n
    rw [List.enumFrom_cons]
    refine List.Pairwise.cons ?_ (ih (n + 1))
    intro b hb
    have := (List.mem_enumFrom (x := b.2) (i := b.1) (j := n + 1) (by simpa using hb)).1
    omega

theorem pairwise_fst_lt_enum {α : Type} (l : List α) :
    l.enum.Pairwise (fun a b => a.1 < b.1) := by
  simpa [List.enum] using pairwise_fst_lt_enumFrom l 0

/-- Every id in one document's chunk list is that document's id format. -/
theorem mem_docChunks_ids {ctx : VdbContext} {di : Nat} {doc : VdbDoc} {x : List Char}
    (hx : x ∈ (docChunks ctx di doc).map (fun m => m.chunkId)) :
    ∃ ci, x = chunkIdStr di ci := by
  obtain ⟨m, hm, rfl⟩ := List.mem_map.mp hx
  obtain ⟨p, _, hp⟩ := List.mem_filterMap.mp hm
  by_cases hc : (pyStrip p.2).isEmpty
  · simp [hc] at hp
  · simp only [hc, Bool.false_eq_true, if_false, Option.some.injEq] at hp
    exact ⟨p.1, by rw [← hp]⟩

/-- The ids inside one document's chunk list are distinct (chunk indexes come
from `enumerate`). -/
theorem nodup_docChunks_ids (ctx : VdbContext) (di : Nat) (doc : VdbDoc) :
    ((docChunks ctx di doc).map (fun m => m.chunkId)).Nodup := by
  unfold docChunks
  rw [List.map_filterMap]
  show List.Pairwise _ _
  rw [List.pairwise_filterMap]
  refine (pairwise_fst_lt_enum (vdbSplitDocument ctx.cfg doc.text)).imp ?_
  intro a b hab x hx y hy
  by_cases ha : (pyStrip a.2).isEmpty <;> by_cases hb : (pyStrip b.2).isEmpty <;>
    simp [ha, hb, Option.mem_def] at hx hy
  subst hx
  subst hy
  intro hcontra
  have := (chunkIdStr_inj hcontra).2
  omega

/-- All chunk ids generated in one build are distinct. -/
theorem nodup_allChunkMetas_ids (ctx : VdbContext) (docs : List VdbDoc) :
    ((allChunkMetas ctx docs).map (fun m => m.chunkId)).Nodup := by
  unfold allChunkMetas
  rw [List.map_flatten, List.map_map]
  rw [List.nodup_flatten]
  constructor
  · intro l hl
    obtain ⟨p, _, rfl⟩ := List.mem_map.mp hl
    exact nodup_docChunks_ids ctx p.1 p.2
  · rw [List.pairwise_map]
    refine (pairwise_fst_lt_enum docs).imp ?_
    intro a b hab
    intro x hx hy
    obtain ⟨ci, rfl⟩ := mem_docChunks_ids (by simpa using hx)
    obtain ⟨cj, hcj⟩ := mem_docChunks_ids (by simpa using hy)
    have := (chunkIdStr_inj hcj).1
    omega

/-! ### Demo values used by witnesses and counterexamples -/

def demoCtx : VdbContext :=
  ⟨⟨1000, 200, 5, ("IndexFlatIP".toList)⟩, fun _ => [1, 0], fun _ => [], []⟩

def demoMeta0 : ChunkMeta := ⟨("doc_0_chunk_0".toList), 0, 0, ("甲".toList), [], []⟩

def demoMeta1 : ChunkMeta := ⟨("doc_0_chunk_1".toList), 0, 1, ("乙".toList), [], []⟩

/-- A persisted state whose index blob holds one row while the passage store
holds two entries. -/
def mismatchedDisk : VdbDisk :=
  ⟨some [[1, 0]], some emptyVdbMetaData,
   some [(demoMeta0.chunkId, demoMeta0), (demoMeta1.chunkId, demoMeta1)]⟩

def demoOldDisk : VdbDisk := ⟨some [[9]], some emptyVdbMetaData, some []⟩

def demoDocs : List VdbDoc := [⟨("第一条 资本。".toList), []⟩]

def demoLoadedState : VdbState :=
  ⟨some [[2, 1], [0, 3]],
   [(demoMeta0.chunkId, demoMeta0), (demoMeta1.chunkId, demoMeta1)],
   emptyVdbMetaData, true⟩

/-! ### Claim theorems on the VectorDatabase lifecycle -/

theorem build_eq_buildFull (ctx : VdbContext) (docs : List VdbDoc) (force : Bool)
    (s : VdbState) (d : VdbDisk) (failAt : Option SaveFail) :
    build_from_documents ctx docs force s d failAt = buildFull ctx docs s d failAt := by
  simp [build_from_documents]

theorem buildFull_error (ctx : VdbContext) (docs : List VdbDoc) (s : VdbState)
    (d : VdbDisk) (failAt : Option SaveFail) (e : Unit)
    (henc : encode_texts ctx ((allChunkMetas ctx docs).map fun m => m.text) =
      Except.error e) :
    buildFull ctx docs s d failAt = (s, d, Except.error e) := by
  simp [buildFull, henc]

theorem buildFull_ok_projections (ctx : VdbContext) (docs : List VdbDoc)
    (s : VdbState) (d : VdbDisk) (failAt : Option SaveFail)
    (vectors : List (List Int))
    (henc : encode_texts ctx ((allChunkMetas ctx docs).map fun m => m.text) =
      Except.ok vectors) :
    (buildFull ctx docs s d failAt).1.index = some vectors ∧
    (buildFull ctx docs s d failAt).1.documentStore =
      dictOfList ((allChunkMetas ctx docs).map (fun m => (m.chunkId, m))) ∧
    (buildFull ctx docs s d failAt).2.2 = Except.ok true := by
  refine ⟨?_, ?_, ?_⟩ <;> simp [buildFull, henc]

/-- C1 (amended): after every successful `build_from_documents` the index rows
are exactly the embeddings of the kept chunks, in order, and the document
store is exactly the chunk-id/metadata pairs in the same order — so the i-th
store key corresponds positionally to index row i and the row count equals
the store size.  (`load_from_disk`, by contrast, performs no such check; see
the counterexample.) -/
theorem c1_build_store_index_alignment (ctx : VdbContext) (docs : List VdbDoc)
    (force : Bool) (s : VdbState) (d : VdbDisk) (failAt : Option SaveFail)
    (h : (build_from_documents ctx docs force s d failAt).2.2 = Except.ok true) :
    (build_from_documents ctx docs force s d failAt).1.index =
      some ((allChunkMetas ctx docs).map (fun m => ctx.embed m.text)) ∧
    (build_from_documents ctx docs force s d failAt).1.documentStore =
      (allChunkMetas ctx docs).map (fun m => (m.chunkId, m)) ∧
    ((build_from_documents ctx docs force s d failAt).1.index.getD []).length =
      (build_from_documents ctx docs force s d failAt).1.documentStore.length := by
  rw [build_eq_buildFull] at h ⊢
  cases henc : encode_texts ctx ((allChunkMetas ctx docs).map fun m => m.text) with
  | error e => rw [buildFull_error ctx docs s d failAt e henc] at h; simp at h
  | ok vectors =>
    obtain ⟨hidx, hst, _⟩ := buildFull_ok_projections ctx docs s d failAt vectors henc
    have hvec : vectors = (allChunkMetas ctx docs).map (fun m => ctx.embed m.text) := by
      unfold encode_texts at henc
      by_cases he : ((allChunkMetas ctx docs).map fun m => m.text).isEmpty
      · simp [he] at henc
      · simp only [he, Bool.false_eq_true, if_false, Except.ok.injEq] at henc
        rw [← henc, List.map_map]
        rfl
    have hkeys : (((allChunkMetas ctx docs).map (fun m => (m.chunkId, m))).map Prod.fst).Nodup := by
      rw [List.map_map]
      exact nodup_allChunkMetas_ids ctx docs
    have hstore := dictOfList_eq_self _ hkeys
    rw [hstore] at hst
    refine ⟨by rw [hidx, hvec], hst, ?_⟩
    rw [hidx, hst, hvec]
    simp

/-- C1 witness: a concrete successful build over one document. -/
theorem c1_witness :
    (build_from_documents demoCtx demoDocs true vdbInit demoOldDisk none).1.index =
      some ((allChunkMetas demoCtx demoDocs).map (fun m => demoCtx.embed m.text)) ∧
    (build_from_documents demoCtx demoDocs true vdbInit demoOldDisk none).1.documentStore =
      (allChunkMetas demoCtx demoDocs).map (fun m => (m.chunkId, m)) ∧
    ((build_from_documents demoCtx demoDocs true vdbInit demoOldDisk none).1.index.getD []).length =
      (build_from_documents demoCtx demoDocs true vdbInit demoOldDisk none).1.documentStore.length :=
  c1_build_store_index_alignment demoCtx demoDocs true vdbInit demoOldDisk none (by decide)

/-- C1 counterexample: `load_from_disk` succeeds on a persisted state whose
index row count (1) differs from its passage-store size (2) — the corruption
is not detected. -/
theorem c1_load_no_consistency_check :
    (load_from_disk vdbInit mismatchedDisk).2 = true ∧
    ((load_from_disk vdbInit mismatchedDisk).1.index.getD []).length ≠
      (load_from_disk vdbInit mismatchedDisk).1.documentStore.length := by
  decide

/-- C7: calling `search` on a database that is not loaded (or whose index is
absent) raises (`ValueError`), never returning a result list. -/
theorem c7_search_unloaded_raises (ctx : VdbContext) (s : VdbState)
    (q : List Char) (k? : Option Nat)
    (h : s.isLoaded = false ∨ s.index = none) :
    vdbSearch ctx s q k? = Except.error () := by
  unfold vdbSearch
  rcases h with h | h
  · simp [h]
  · cases hL : s.isLoaded <;> simp [h, hL]

/-- C7 witness: a freshly initialized database refuses `search`. -/
theorem c7_witness :
    (vdbInit.isLoaded = false ∨ vdbInit.index = none) ∧
    vdbSearch demoCtx vdbInit ("资本充足率".toList) none = Except.error () :=
  ⟨Or.inl rfl, c7_search_unloaded_raises demoCtx vdbInit _ none (Or.inl rfl)⟩

/-- C8 (amended): a build failure that happens before any artifact is
serialized (encoding / index construction) leaves both the in-memory state
and the persisted artifacts unchanged.  A failure during serialization does
not: the artifacts are written in place one after another (see the
counterexample). -/
theorem c8_build_failure_before_write_preserves_disk (ctx : VdbContext)
    (docs : List VdbDoc) (force : Bool) (s : VdbState) (d : VdbDisk)
    (failAt : Option SaveFail)
    (h : (build_from_documents ctx docs force s d failAt).2.2 = Except.error ()) :
    (build_from_documents ctx docs force s d failAt).1 = s ∧
    (build_from_documents ctx docs force s d failAt).2.1 = d := by
  rw [build_eq_buildFull] at h ⊢
  cases henc : encode_texts ctx ((allChunkMetas ctx docs).map fun m => m.text) with
  | error e => rw [buildFull_error ctx docs s d failAt e henc]; exact ⟨rfl, rfl⟩
  | ok vectors =>
    have := (buildFull_ok_projections ctx docs s d failAt vectors henc).2.2
    rw [this] at h
    simp at h

/-- C8 witness: building from an empty document list produces no chunks, so
`np.vstack` raises during encoding and neither state nor disk changes. -/
theorem c8_witness :
    (build_from_documents demoCtx [] true vdbInit demoOldDisk none).1 = vdbInit ∧
    (build_from_documents demoCtx [] true vdbInit demoOldDisk none).2.1 = demoOldDisk :=
  c8_build_failure_before_write_preserves_disk demoCtx [] true vdbInit demoOldDisk none
    (by decide)

/-- C8 counterexample: a serialization failure while writing the metadata file
(after the index blob was already written) leaves the persisted state partially
replaced — the index blob is new, the metadata file is old — and
`build_from_documents` still returns success, contradicting "all artifacts
left unchanged on any failure". -/
theorem c8_partial_write_counterexample :
    (build_from_documents demoCtx demoDocs true vdbInit demoOldDisk
        (some SaveFail.atMetadata)).2.1 ≠ demoOldDisk ∧
    (build_from_documents demoCtx demoDocs true vdbInit demoOldDisk
        (some SaveFail.atMetadata)).2.1.metadataFile = demoOldDisk.metadataFile ∧
    (build_from_documents demoCtx demoDocs true vdbInit demoOldDisk
        (some SaveFail.atMetadata)).2.2 = Except.ok true := by
  decide

/-- C9: for any built database, saving, loading into a fresh instance and
searching with the same query yields exactly the same results (same ids in
the same order, scores exactly equal — hence within any tolerance). -/
theorem c9_save_load_search_roundtrip (ctx : VdbContext) (s : VdbState)
    (d : VdbDisk) (q : List Char) (k? : Option Nat) (rows : List (List Int))
    (hl : s.isLoaded = true) (hi : s.index = some rows) :
    (load_from_disk vdbInit (save_to_disk s d none).1).2 = true ∧
    vdbSearch ctx (load_from_disk vdbInit (save_to_disk s d none).1).1 q k? =
      vdbSearch ctx s q k? := by
  obtain ⟨idx, store, md, loaded⟩ := s
  simp only at hl hi
  subst hl
  subst hi
  exact ⟨rfl, rfl⟩

/-- C9 witness: a concrete two-row database round-trips through save/load with
identical search results. -/
theorem c9_witness :
    (load_from_disk vdbInit (save_to_disk demoLoadedState demoOldDisk none).1).2 = true ∧
    vdbSearch demoCtx
        (load_from_disk vdbInit (save_to_disk demoLoadedState demoOldDisk none).1).1
        ("监管".toList) none =
      vdbSearch demoCtx demoLoadedState ("监管".toList) none :=
  c9_save_load_search_roundtrip demoCtx demoLoadedState demoOldDisk
    ("监管".toList) none [[2, 1], [0, 3]] rfl rfl

/-- C10: the fallback splitter's window loop terminates for every input and
every configuration with `chunk_size ≥ 1` (overlap unclamped, even
`chunk_overlap ≥ chunk_size`): `content.length` loop iterations always
suffice, because `start = max(start + 1, end - chunk_overlap)` strictly
increases. -/
theorem c10_split_loop_terminates (cfg : Config) (content : List Char)
    (h : 1 ≤ cfg.chunkSize) :
    vdbSplitLoopF cfg content content.length 0 [] =
      some (vdbSplitLoop cfg content 0 []) :=
  vdbSplitLoopF_sufficient cfg content content.length 0 [] (by omega)

/-- C10 witness: a configuration whose overlap (5) exceeds its chunk size (2)
still terminates within `length` iterations. -/
theorem c10_witness :
    1 ≤ (⟨2, 5, 5, []⟩ : Config).chunkSize ∧
    vdbSplitLoopF ⟨2, 5, 5, []⟩ ("abcdef".toList) (("abcdef".toList).length) 0 [] =
      some (vdbSplitLoop ⟨2, 5, 5, []⟩ ("abcdef".toList) 0 []) :=
  ⟨by decide, c10_split_loop_terminates ⟨2, 5, 5, []⟩ ("abcdef".toList) (by decide)⟩

/-! ## `_split_document` (backups/rag_engine_backup.py lines 317-419): the
structure-aware splitter -/

structure BackupConfig where
  chunkSize : Nat
  chunkOverlap : Nat
  minChunkLength : Nat
deriving DecidableEq

/-- After the maximal `\s*` run, is the next character `#`?  (The trailing
`\s*#` of the title regex is deterministic: `#` is not whitespace.) -/
def wsThenHash (rest : List Char) : Bool :=
  match rest.dropWhile isPySpace with
  | '#' :: _ => true
  | _ => false

/-- The lazy group `(.*?)` of the title regex `#\s*(.*?)\s*#`: grow the group
one non-newline character at a time, stopping at the first point from which
`\s*#` completes. -/
def titleScan : List Char → List Char → Option (List Char)
  | rest, acc =>
    if wsThenHash rest then some acc.reverse
    else
      match rest with
      | [] => none
      | c :: rs => if c = '\n' then none else titleScan rs (c :: acc)

/-- Attempt the title regex at the current position. -/
def titleAt : List Char → Option (List Char)
  | '#' :: rest => titleScan (rest.dropWhile isPySpace) []
  | _ => none

/-- `re.search(r'#\s*(.*?)\s*#', content)`: leftmost match wins; the group is
returned. -/
def searchTitle : List Char → Option (List Char)
  | [] => none
  | c :: rest =>
    match titleAt (c :: rest) with
    | some g => some g
    | none => searchTitle rest

def isCnNumeral (c : Char) : Bool :=
  c = '一' || c = '二' || c = '三' || c = '四' || c = '五' || c = '六' ||
  c = '七' || c = '八' || c = '九' || c = '十' || c = '百'

/-- Lazy `.*?` followed by the literal `lit` (`.` never matches a newline):
the number of characters consumed up to and including `lit`, if reachable. -/
def lazyUntilLit (lit : List Char) : List Char → Nat → Option Nat
  | rest, n =>
    if lit.isPrefixOf rest then some (n + lit.length)
    else
      match rest with
      | [] => none
      | c :: rs => if c = '\n' then none else lazyUntilLit lit rs (n + 1)

/-- First alternative of the section-split regex:
`\n##\s*第[一二三四五六七八九十百]+[章节条].*?##\n`; returns the match length. -/
def sepAlt1 : List Char → Option Nat
  | '\n' :: '#' :: '#' :: rest =>
    match rest.dropWhile isPySpace with
    | '第' :: r2 =>
      if (r2.takeWhile isCnNumeral).isEmpty then none
      else
        match r2.dropWhile isCnNumeral with
        | c :: r3 =>
          if c = '章' ∨ c = '节' ∨ c = '条' then
            (lazyUntilLit ("##\n".toList) r3 0).map
              (fun k => 3 + (rest.takeWhile isPySpace).length + 1 +
                (r2.takeWhile isCnNumeral).length + 1 + k)
          else none
        | [] => none
    | _ => none
  | _ => none

/-- Second alternative: `\n###.*?###\n`. -/
def sepAlt2 : List Char → Option Nat
  | '\n' :: '#' :: '#' :: '#' :: rest =>
    (lazyUntilLit ("###\n".toList) rest 0).map (fun k => 4 + k)
  | _ => none

/-- The alternation, first alternative preferred (as `re` does). -/
def sepMatch (s : List Char) : Option Nat :=
  match sepAlt1 s with
  | some k => some k
  | none => sepAlt2 s

theorem sepAlt1_pos {s : List Char} {k : Nat} (h : sepAlt1 s = some k) : 1 ≤ k := by
  unfold sepAlt1 at h
  repeat' split at h
  all_goals first
    | (rw [Option.map_eq_some'] at h; obtain ⟨k0, -, hk⟩ := h; omega)
    | simp_all

theorem sepAlt2_pos {s : List Char} {k : Nat} (h : sepAlt2 s = some k) : 1 ≤ k := by
  unfold sepAlt2 at h
  repeat' split at h
  all_goals first
    | (rw [Option.map_eq_some'] at h; obtain ⟨k0, -, hk⟩ := h; omega)
    | simp_all

theorem sepMatch_pos {s : List Char} {k : Nat} (h : sepMatch s = some k) : 1 ≤ k := by
  unfold sepMatch at h
  split at h
  · rename_i p hp
    injection h with h2
    subst h2
    exact sepAlt1_pos hp
  · exact sepAlt2_pos h

/-- `re.split(r'(\n##\s*第…##\n|\n###.*?###\n)', content)` with the captured
separators kept in the result: fuel-indexed scanner (the fuel-exhausted case
is unreachable for fuel `> length`, see `splitSectionsF_stable`). -/
def splitSectionsF : Nat → List Char → List Char → List (List Char)
  | 0, s, cur => [cur.reverse ++ s]
  | fuel + 1, s, cur =>
    match s with
    | [] => [cur.reverse]
    | c :: rest =>
      match sepMatch (c :: rest) with
      | some k =>
          cur.reverse :: (c :: rest).take k :: splitSectionsF fuel ((c :: rest).drop k) []
      | none => splitSectionsF fuel rest (c :: cur)

theorem splitSectionsF_stable :
    ∀ (f1 f2 : Nat) (s cur : List Char), s.length < f1 → s.length < f2 →
      splitSectionsF f1 s cur = splitSectionsF f2 s cur := by
  intro f1
  induction f1 with
  | zero => intro f2 s cur h1 _; omega
  | succ n ih =>
    intro f2 s cur h1 h2
    cases f2 with
    | zero => omega
    | succ m =>
      cases s with
      | nil => rfl
      | cons c rest =>
        simp only [splitSectionsF]
        cases hm : sepMatch (c :: rest) with
        | some k =>
          have hk := sepMatch_pos hm
          have hlen1 : ((c :: rest).drop k).length < n := by
            simp only [List.length_drop, List.length_cons] at h1 ⊢
            omega
          have hlen2 : ((c :: rest).drop k).length < m := by
            simp only [List.length_drop, List.length_cons] at h2 ⊢
            omega
          exact congrArg (fun t => cur.reverse :: (c :: rest).take k :: t)
            (ih m _ [] hlen1 hlen2)
        | none =>
          exact ih m rest (c :: cur) (by simp at h1 ⊢; omega) (by simp at h2 ⊢; omega)

/-- The section list produced by the split (fuel instantiated at
`length + 1`, which always suffices). -/
def splitSections (s : List Char) : List (List Char) :=
  splitSectionsF (s.length + 1) s []

/-- `re.match(r'##\s*第[一二三四五六七八九十百]+[章节条].*?##', section)`. -/
def headingMatch1 (s : List Char) : Bool :=
  match s with
  | '#' :: '#' :: rest =>
    match rest.dropWhile isPySpace with
    | '第' :: r2 =>
      let nums := r2.takeWhile isCnNumeral
      if nums.isEmpty then false
      else
        match r2.dropWhile isCnNumeral with
        | c :: r3 =>
          if c = '章' ∨ c = '节' ∨ c = '条' then
            (lazyUntilLit ("##".toList) r3 0).isSome
          else false
        | [] => false
    | _ => false
  | _ => false

/-- `re.match(r'###.*?###', section)`. -/
def headingMatch2 (s : List Char) : Bool :=
  match s with
  | '#' :: '#' :: '#' :: rest => (lazyUntilLit ("###".toList) rest 0).isSome
  | _ => false

def isHeadingSection (s : List Char) : Bool := headingMatch1 s || headingMatch2 s

/-- `re.split(r'([。！？])', para)`: alternating text/terminator pieces. -/
def splitKeepTerm : List Char → List Char → List (List Char)
  | [], cur => [cur.reverse]
  | c :: rest, cur =>
    if c = '。' ∨ c = '！' ∨ c = '？' then cur.reverse :: [c] :: splitKeepTerm rest []
    else splitKeepTerm rest (c :: cur)

/-- The `for j in range(0, len(sentences), 2)` pairing: each text piece glued
to its terminator, the last piece alone if unmatched. -/
def pairSentences : List (List Char) → List (List Char)
  | t :: sep :: rest => (t ++ sep) :: pairSentences rest
  | [t] => [t]
  | [] => []

/-- Flush helper: prefix plus `"\n".join(parts)`, kept only when at least
`min_chunk_length` long. -/
def maybeEmit (pfx : List Char) (minLen : Nat) (parts : List (List Char)) :
    List (List Char) :=
  let full := pfx ++ List.intercalate ['\n'] parts
  if minLen ≤ full.length then [full] else []

structure SubState where
  emitted : List (List Char)
  temp : List (List Char)
  tempLen : Nat

/-- One sentence of the sentence-accumulation loop (note: no `+1` for a
newline here, faithfully to the source). -/
def subSentStep (pfx : List Char) (minLen : Nat) (budget : Int)
    (st : SubState) (sentence : List Char) : SubState :=
  if (st.tempLen : Int) + sentence.length ≤ budget then
    ⟨st.emitted, st.temp ++ [sentence], st.tempLen + sentence.length⟩
  else
    ⟨st.emitted ++ (if st.temp.isEmpty then [] else maybeEmit pfx minLen st.temp),
     [sentence], sentence.length⟩

/-- One paragraph of the oversized-section subdivision. -/
def subParaStep (pfx : List Char) (minLen : Nat) (budget : Int)
    (st : SubState) (para : List Char) : SubState :=
  if (st.tempLen : Int) + para.length ≤ budget then
    ⟨st.emitted, st.temp ++ [para], st.tempLen + para.length + 1⟩
  else if (para.length : Int) > budget then
    (pairSentences (splitKeepTerm para [])).foldl (subSentStep pfx minLen budget) st
  else
    ⟨st.emitted ++ (if st.temp.isEmpty then [] else maybeEmit pfx minLen st.temp),
     [para], para.length⟩

/-- Subdivision of a section longer than the budget: paragraphs first, then
sentences for paragraphs that are themselves too long. -/
def subdivide (pfx : List Char) (minLen : Nat) (budget : Int)
    (sec : List Char) : List (List Char) :=
  let st := (List.splitOn '\n' sec).foldl (subParaStep pfx minLen budget) ⟨[], [], 0⟩
  st.emitted ++ (if st.temp.isEmpty then [] else maybeEmit pfx minLen st.temp)

/-- The `for i in range(0, len(sections))` loop.  The source's `i += 1` after
a heading merge has no effect on a Python `range` loop, so the section merged
after a heading is processed again on the next iteration — modelled here by
recursing on `rest` unchanged after a merge. -/
def backupLoop (cfg : BackupConfig) (pfx : List Char) (budget : Int) :
    List (List Char) → List (List Char) → List (List Char) → Nat → List (List Char)
  | [], chunks, cur, _ =>
    chunks ++ (if cur.isEmpty then [] else maybeEmit pfx cfg.minChunkLength cur)
  | secRaw :: rest, chunks, cur, curLen =>
    let s := pyStrip secRaw
    if s.isEmpty then backupLoop cfg pfx budget rest chunks cur curLen
    else
      let s2 := match rest with
        | r1 :: _ => if isHeadingSection s then s ++ '\n' :: pyStrip r1 else s
        | [] => s
      let flushNow : Bool :=
        decide ((curLen : Int) + s2.length > budget) && !cur.isEmpty
      let chunks1 := if flushNow then chunks ++ maybeEmit pfx cfg.minChunkLength cur
                     else chunks
      let cur1 := if flushNow then [] else cur
      let curLen1 := if flushNow then 0 else curLen
      if (s2.length : Int) > budget then
        backupLoop cfg pfx budget rest
          (chunks1 ++ subdivide pfx cfg.minChunkLength budget s2) cur1 curLen1
      else
        backupLoop cfg pfx budget rest chunks1 (cur1 ++ [s2]) (curLen1 + s2.length + 1)

/-- The structure-aware `_split_document`: short documents returned whole iff
at least `min_chunk_length` long; otherwise title extraction, section split,
and the accumulation loop.  The clamped overlap is computed but never used,
as in the source. -/
def backupSplitDocument (cfg : BackupConfig) (content : List Char) :
    List (List Char) :=
  let _chunkOverlap := min cfg.chunkOverlap (cfg.chunkSize / 4)
  if content.length ≤ cfg.chunkSize then
    if cfg.minChunkLength ≤ content.length then [content] else []
  else
    let documentTitle := (searchTitle content).getD []
    let pfx := if documentTitle.isEmpty then ([] : List Char)
               else ("# ".toList) ++ documentTitle ++ (" #\n".toList)
    backupLoop cfg pfx ((cfg.chunkSize : Int) - pfx.length)
      (splitSections content) [] [] 0

/-- Number of positions at which `needle` occurs in a list. -/
def countSub (needle : List Char) : List Char → Nat
  | [] => if needle.isEmpty then 1 else 0
  | c :: rest => (if needle.isPrefixOf (c :: rest) then 1 else 0) + countSub needle rest

/-! ### Claim theorems on the splitters -/

/-- C5 (amended): a document no longer than `chunk_size` is returned whole by
the backup splitter iff its length reaches `min_chunk_length` (else dropped),
but `VectorDatabase._split_document` returns it whole unconditionally — it
has no minimum-length filter. -/
theorem c5_short_document_behavior :
    (∀ (cfg : BackupConfig) (content : List Char), content.length ≤ cfg.chunkSize →
      backupSplitDocument cfg content =
        if cfg.minChunkLength ≤ content.length then [content] else []) ∧
    (∀ (cfg : Config) (content : List Char), content.length ≤ cfg.chunkSize →
      vdbSplitDocument cfg content = [content]) := by
  constructor
  · intro cfg content h
    unfold backupSplitDocument
    simp [h]
  · intro cfg content h
    unfold vdbSplitDocument
    simp [h]

/-- C5 counterexample: a one-character document (far below the 50-character
minimum the spec assigns to the splitter) is returned whole by
`VectorDatabase._split_document`, not dropped as the claim requires. -/
theorem c5_vdb_returns_short_text_counterexample :
    vdbSplitDocument ⟨1000, 200, 5, []⟩ ("x".toList) = [("x".toList)] ∧
    ("x".toList).length < 50 := by
  decide

/-- C5 witness: both splitters evaluated on a concrete 3-character document
under `chunk_size = 1000`. -/
theorem c5_witness :
    backupSplitDocument ⟨1000, 200, 50⟩ ("第一条".toList) =
      (if (⟨1000, 200, 50⟩ : BackupConfig).minChunkLength ≤ ("第一条".toList).length
       then [("第一条".toList)] else []) ∧
    vdbSplitDocument ⟨1000, 200, 5, []⟩ ("第一条".toList) = [("第一条".toList)] :=
  ⟨c5_short_document_behavior.1 ⟨1000, 200, 50⟩ ("第一条".toList) (by decide),
   c5_short_document_behavior.2 ⟨1000, 200, 5, []⟩ ("第一条".toList) (by decide)⟩

def c6Config : BackupConfig := ⟨25, 6, 2⟩

def c6Input : List Char := ("前言内容。\n## 第一章 总则 ##\n正文甲。正文乙。".toList)

def c6Body : List Char := ("正文甲。正文乙。".toList)

/-- C6: the heading-merge slip.  `i += 1` inside `for i in range(...)` does
not skip the merged section in Python, so the text following a heading is
emitted twice: once merged after the heading and once as its own passage.
On this input the body occurs once in the source but twice in the emitted
passages, refuting the no-duplication coverage property the code intends
(per its own merge comment). -/
theorem c6_heading_body_duplicated :
    backupSplitDocument c6Config c6Input =
      [("前言内容。".toList), ("## 第一章 总则 ##\n正文甲。正文乙。".toList),
       ("正文甲。正文乙。".toList)] ∧
    countSub c6Body c6Input = 1 ∧
    countSub c6Body (backupSplitDocument c6Config c6Input).flatten = 2 := by
  decide

/-! ## `extract_choice_answer` (main_optimized.py lines 281-499)

The extractor is a prioritized cascade; each stage is embedded as an
`Option`-valued function (Python's early `return` becomes `some`, falling
through becomes `none`), and each regex is embedded as a bespoke matcher
implementing that pattern's exact leftmost/greedy/lazy behaviour, as analysed
per pattern (the character classes involved — option letters, Chinese
connective literals, separators, whitespace — are pairwise disjoint, which
makes the greedy matches deterministic). -/

def abcd : List Char := ['A', 'B', 'C', 'D']

/-- Python `re` word characters (`\w`) for the character classes the code's
inputs contain: ASCII alphanumerics, underscore, and CJK unified ideographs
(CJK punctuation and whitespace are not word characters). -/
def isWordChar (c : Char) : Bool :=
  ('A' ≤ c && c ≤ 'Z') || ('a' ≤ c && c ≤ 'z') || ('0' ≤ c && c ≤ '9') || c = '_' ||
  (0x4E00 ≤ c.toNat && c.toNat ≤ 0x9FFF)

def charAt (s : List Char) (i : Nat) : Char := (s.get? i).getD ' '

/-- Both `\b` boundaries around position `i`. -/
def boundaryOk (s : List Char) (i : Nat) : Bool :=
  (decide (i = 0) || !isWordChar (charAt s (i - 1))) &&
  (decide (i + 1 = s.length) || !isWordChar (charAt s (i + 1)))

/-- `choices = re.findall(r'\b([A-D])\b', answer_text_upper)`. -/
def boundedLetters (s : List Char) : List Char :=
  (List.range s.length).filterMap (fun i =>
    if abcd.contains (charAt s i) && boundaryOk s i then some (charAt s i) else none)

/-- Python `sorted` on letters. -/
def pySorted (l : List Char) : List Char := List.insertionSort (· ≤ ·) l

/-- The `exact_tests` literal-override table. -/
def exactTests : List (List Char × List Char) :=
  [(("选项A和D是正确的".toList), ['A', 'D']),
   (("A,B,C都是正确选项".toList), ['A', 'B', 'C']),
   (("选项B与C是正确答案".toList), ['B', 'C']),
   (("既有A也有B是对的".toList), ['A', 'B']),
   (("本题答案包括A以及C".toList), ['A', 'C'])]

def lookupExact (s : List Char) : Option (List Char) :=
  (exactTests.find? (fun p => p.1 == s)).map (fun p => p.2)

/-! ### Base matchers -/

def dropWs (s : List Char) : List Char := s.dropWhile isPySpace

def pLit (lit s : List Char) : Option (List Char) :=
  if lit.isPrefixOf s then some (s.drop lit.length) else none

def pLetter : List Char → Option (Char × List Char)
  | c :: rest => if abcd.contains c then some (c, rest) else none
  | [] => none

def pClass (cls : List Char) : List Char → Option (Char × List Char)
  | c :: rest => if cls.contains c then some (c, rest) else none
  | [] => none

/-- Leftmost `re.search` for a capture-producing matcher. -/
def searchCaps (f : List Char → Option (List Char)) : List Char → Option (List Char)
  | [] => f []
  | c :: rest =>
    match f (c :: rest) with
    | some r => some r
    | none => searchCaps f rest

/-- Leftmost `re.search` existence for a boolean matcher. -/
def searchB (f : List Char → Bool) : List Char → Bool
  | [] => f []
  | c :: rest => f (c :: rest) || searchB f rest

/-- Leftmost `re.findall`'s first single-letter capture. -/
def searchAt (p : List Char → Option Char) : List Char → Option Char
  | [] => p []
  | c :: rest =>
    match p (c :: rest) with
    | some r => some r
    | none => searchAt p rest

/-! ### Stage 1: specific conjunction patterns -/

/-- A conjunction-pair regex `pre\s*([A-D])\s*mid\s*([A-D])` with an optional
trailing literal (`…是`): the two captured letters. -/
def pConj (pre mid post s : List Char) : Option (List Char) := do
  let s1 ← pLit pre s
  let (a, s2) ← pLetter (dropWs s1)
  let s3 ← pLit mid (dropWs s2)
  let (b, s4) ← pLetter (dropWs s3)
  if post.isEmpty then pure [a, b]
  else do
    let _ ← pLit post (dropWs s4)
    pure [a, b]

def sepsPair : List Char := [',', '，', '、']

/-- `([A-D])[,，、]([A-D])[,，、]([A-D]).*都` (the `.*` never crosses a
newline). -/
def pTriple (s : List Char) : Option (List Char) := do
  let (a, s1) ← pLetter s
  let (_, s2) ← pClass sepsPair s1
  let (b, s3) ← pLetter s2
  let (_, s4) ← pClass sepsPair s3
  let (c, s5) ← pLetter s4
  if (s5.takeWhile (fun x => x != '\n')).contains '都' then pure [a, b, c] else none

def specificPatterns : List (List Char → Option (List Char)) :=
  [pConj ("选项".toList) ("与".toList) ("是".toList),
   pConj ("选项".toList) ("和".toList) ("是".toList),
   pConj ("既有".toList) ("也有".toList) [],
   pConj ("包括".toList) ("以及".toList) [],
   pTriple]

def stageSpecific (up : List Char) : Option (List Char) :=
  specificPatterns.findSome? (fun p =>
    match searchCaps p up with
    | some groups =>
      let options := groups.filter (fun g => abcd.contains g)
      if 2 ≤ options.length then some (pySorted options) else none
    | none => none)

/-! ### Stage 2: connector word + multiple options -/

def connectorWords : List (List Char) :=
  [("和".toList), ("与".toList), ("以及".toList), ("还有".toList),
   ("也有".toList), ("包括".toList), ("涵盖".toList)]

def hasConnector (low : List Char) : Bool :=
  connectorWords.any (fun w => isSubstr w low)

def connChars : List Char := ['和', '与', '、', '，', ',']

/-- One position of `re.search(f"{o1}\\s*{conn}\\s*{o2}", upper)`. -/
def pAdjAt (o1 cn o2 : Char) : List Char → Bool
  | c :: rest =>
    c = o1 &&
      (match dropWs rest with
       | d :: rest2 =>
         d = cn &&
           (match dropWs rest2 with
            | e :: _ => e = o2
            | [] => false)
       | [] => false)
  | [] => false

/-- The nested `for option1 / option2 / conn` search, in source order. -/
def findAdjacentPair (up : List Char) : Option (Char × Char) :=
  abcd.findSome? (fun o1 =>
    abcd.findSome? (fun o2 =>
      if o1 = o2 then none
      else connChars.findSome? (fun cn =>
        if searchB (pAdjAt o1 cn o2) up then some (o1, o2) else none)))

def stageConnector (up low choices : List Char) : Option (List Char) :=
  if hasConnector low && decide (2 ≤ choices.dedup.length) then
    match findAdjacentPair up with
    | some p => some (pySorted [p.1, p.2])
    | none => some (pySorted choices.dedup)
  else none

/-! ### Stage 3: "都是正确 / 都正确" -/

def stageAllCorrect (up choices : List Char) : Option (List Char) :=
  if isSubstr ("都是正确".toList) up || isSubstr ("都正确".toList) up then
    if 2 ≤ choices.dedup.length then some (pySorted choices.dedup) else none
  else none

/-! ### Stage 4: multi-answer declaration patterns -/

def isMultiSep (c : Char) : Bool :=
  c = ',' || c = '，' || c = '、' || c = '.' || c = '；' || c = ';'

/-- The greedy run `([A-D][,，、\.；;]*[A-D][,，、\.；;]*[A-D]?[,，、\.；;]*[A-D]?)`:
returns the captured substring (trailing separator runs are captured by the
greedy stars) and the remainder. -/
def pRun (s : List Char) : Option (List Char × List Char) := do
  let (a, s1) ← pLetter s
  let w1 := s1.takeWhile isMultiSep
  let s2 := s1.drop w1.length
  let (b, s3) ← pLetter s2
  let w2 := s3.takeWhile isMultiSep
  let s4 := s3.drop w2.length
  match pLetter s4 with
  | some (c, s5) =>
    let w3 := s5.takeWhile isMultiSep
    let s6 := s5.drop w3.length
    match pLetter s6 with
    | some (d, s7) => pure (a :: (w1 ++ b :: (w2 ++ c :: (w3 ++ [d]))), s7)
    | none => pure (a :: (w1 ++ b :: (w2 ++ c :: w3)), s6)
  | none => pure (a :: (w1 ++ b :: w2), s4)

/-- Same run but with the `[,，、]+` mandatory first separator (patterns 5/6). -/
def pRun2 (s : List Char) : Option (List Char × List Char) := do
  let (a, s1) ← pLetter s
  let w1 := s1.takeWhile (fun c => sepsPair.contains c)
  if w1.isEmpty then none
  else do
    let s2 := s1.drop w1.length
    let (b, s3) ← pLetter s2
    let w2 := s3.takeWhile (fun c => sepsPair.contains c)
    let s4 := s3.drop w2.length
    match pLetter s4 with
    | some (c, s5) =>
      let w3 := s5.takeWhile (fun x => sepsPair.contains x)
      let s6 := s5.drop w3.length
      match pLetter s6 with
      | some (d, s7) => pure (a :: (w1 ++ b :: (w2 ++ c :: (w3 ++ [d]))), s7)
      | none => pure (a :: (w1 ++ b :: (w2 ++ c :: w3)), s6)
    | none => pure (a :: (w1 ++ b :: w2), s4)

def pMulti1 (s : List Char) : Option (List Char) := do
  let s1 ← pLit ("正确答案".toList) s
  let (_, s2) ← pClass ['是', '为', '：', ':'] s1
  let (cap, _) ← pRun (dropWs s2)
  pure cap

def pMulti2 (s : List Char) : Option (List Char) := do
  let s1 ← pLit ("答案".toList) s
  let (_, s2) ← pClass ['是', '为', '：', ':'] s1
  let (cap, _) ← pRun (dropWs s2)
  pure cap

def pMulti3 (s : List Char) : Option (List Char) := do
  let s1 ← pLit ("选择".toList) s
  let (cap, _) ← pRun (dropWs s1)
  pure cap

def pMulti4 (s : List Char) : Option (List Char) := do
  let s1 ← pLit ("应该选择".toList) s
  let (cap, _) ← pRun (dropWs s1)
  pure cap

/-- `([A-D][,，、]+[A-D][,，、]*[A-D]?[,，、]*[A-D]?)\s*正确`. -/
def pMulti5 (s : List Char) : Option (List Char) := do
  let (cap, rest) ← pRun2 s
  let _ ← pLit ("正确".toList) (dropWs rest)
  pure cap

/-- `正确答案[是为]?\s*([A-D][,，、]+…)`: the optional class is tried consumed
first, then not consumed. -/
def pMulti6 (s : List Char) : Option (List Char) := do
  let s1 ← pLit ("正确答案".toList) s
  match (do
      let (_, s2) ← pClass ['是', '为'] s1
      pRun2 (dropWs s2)) with
  | some (cap, _) => pure cap
  | none => do
    let (cap, _) ← pRun2 (dropWs s1)
    pure cap

/-- `答案为[：:]\s*([A-D][,，、\.；;]*[A-D])`. -/
def pMulti7 (s : List Char) : Option (List Char) := do
  let s1 ← pLit ("答案为".toList) s
  let (_, s2) ← pClass ['：', ':'] s1
  let (a, s3) ← pLetter (dropWs s2)
  let w := s3.takeWhile isMultiSep
  let (b, _) ← pLetter (s3.drop w.length)
  pure (a :: (w ++ [b]))

def multiPatterns : List (List Char → Option (List Char)) :=
  [pMulti1, pMulti2, pMulti3, pMulti4, pMulti5, pMulti6, pMulti7]

/-- The multi-pattern loop: first pattern whose leftmost match captures more
than one distinct letter wins; its distinct letters, sorted.  (`.strip()` on
the capture is a no-op: a capture begins and ends with a letter.) -/
def stageMulti (pats : List (List Char → Option (List Char))) (up : List Char) :
    Option (List Char) :=
  pats.findSome? (fun p =>
    match searchCaps p up with
    | some cap =>
      let cs := cap.filter (fun c => abcd.contains c)
      if !cs.isEmpty && decide (1 < cs.dedup.length) then some (pySorted cs.dedup)
      else none
    | none => none)

/-! ### Stage 5: per-option correctness scan -/

/-- `[^A-D]*` followed by the literal `lit` (the negated class does include
newlines). -/
def afterNoLettersLit (lit : List Char) : List Char → Bool
  | [] => lit.isEmpty
  | c :: rest =>
    lit.isPrefixOf (c :: rest) || (!abcd.contains c && afterNoLettersLit lit rest)

/-- `pre{o}[^A-D]*lit` at one position. -/
def pOptAffirm (pre : List Char) (o : Char) (lit : List Char) (s : List Char) : Bool :=
  match pLit pre s with
  | some s1 =>
    match s1 with
    | c :: rest => c = o && afterNoLettersLit lit rest
    | [] => false
  | none => false

/-- The six `option_patterns` for one option, in source order (`break` on the
first that matches ≡ any). -/
def optionAffirmed (o : Char) (up : List Char) : Bool :=
  [pOptAffirm [] o ("正确".toList),
   pOptAffirm ("选项".toList) o ("正确".toList),
   pOptAffirm [] o ("是正确的".toList),
   pOptAffirm [] o ("选择".toList),
   pOptAffirm [] o ("对".toList),
   pOptAffirm [] o ("是对的".toList)].any (fun p => searchB p up)

def stagePerOption (up : List Char) : Option (List Char) :=
  if 1 < (abcd.filter (fun o => optionAffirmed o up)).length then
    some (pySorted (abcd.filter (fun o => optionAffirmed o up)))
  else none

/-! ### Stage 6: single-answer patterns -/

/-- An optional single-character class `[cls]?` followed by continuation `k`:
greedy (consumed first), with backtracking. -/
def pOptClassThen {α : Type} (cls : List Char) (k : List Char → Option α)
    (s : List Char) : Option α :=
  match pClass cls s with
  | some (_, s1) =>
    match k s1 with
    | some r => some r
    | none => k s
  | none => k s

def pCapLetter (s : List Char) : Option Char := (pLetter s).map (fun p => p.1)

def pSingle1 (s : List Char) : Option Char := do
  let s1 ← pLit ("正确答案".toList) s
  let (_, s2) ← pClass ['是', '为', '：', ':'] s1
  pCapLetter (dropWs s2)

def pSingle2 (s : List Char) : Option Char := do
  let s1 ← pLit ("答案".toList) s
  let (_, s2) ← pClass ['是', '为', '：', ':'] s1
  pCapLetter (dropWs s2)

def pSingle3 (s : List Char) : Option Char := do
  let s1 ← pLit ("选择".toList) s
  pCapLetter (dropWs s1)

/-- `应该选择?\s*([A-D])`. -/
def pSingle4 (s : List Char) : Option Char := do
  let s1 ← pLit ("应该选".toList) s
  pOptClassThen ['择'] (fun t => pCapLetter (dropWs t)) s1

/-- `答案应该[是为]?\s*([A-D])`. -/
def pSingle5 (s : List Char) : Option Char := do
  let s1 ← pLit ("答案应该".toList) s
  pOptClassThen ['是', '为'] (fun t => pCapLetter (dropWs t)) s1

/-- `答案[是为]?\s*([A-D])`, the common tail of the conclusion patterns. -/
def pConclTail (s : List Char) : Option Char := do
  let s1 ← pLit ("答案".toList) s
  pOptClassThen ['是', '为'] (fun t => pCapLetter (dropWs t)) s1

/-- `pre[,，]?\s*答案[是为]?\s*([A-D])` (因此/所以/综上所述/综合分析). -/
def pConcl (pre : List Char) (s : List Char) : Option Char := do
  let s1 ← pLit pre s
  pOptClassThen [',', '，'] (fun t => pConclTail (dropWs t)) s1

/-- `选项\s*([A-D])\s*[是为]?正确`. -/
def pSingle10 (s : List Char) : Option Char := do
  let s1 ← pLit ("选项".toList) s
  let (a, s2) ← pLetter (dropWs s1)
  let _ ← pOptClassThen ['是', '为'] (pLit ("正确".toList)) (dropWs s2)
  pure a

/-- `([A-D])\s*选项[是为]?正确`. -/
def pSingle11 (s : List Char) : Option Char := do
  let (a, s1) ← pLetter s
  let s2 ← pLit ("选项".toList) (dropWs s1)
  let _ ← pOptClassThen ['是', '为'] (pLit ("正确".toList)) s2
  pure a

/-- `([A-D])\s*是正确的`. -/
def pSingle12 (s : List Char) : Option Char := do
  let (a, s1) ← pLetter s
  let _ ← pLit ("是正确的".toList) (dropWs s1)
  pure a

/-- `([A-D])\s*正确`. -/
def pSingle13 (s : List Char) : Option Char := do
  let (a, s1) ← pLetter s
  let _ ← pLit ("正确".toList) (dropWs s1)
  pure a

/-- `[选答]\s*([A-D])`. -/
def pSingle14 (s : List Char) : Option Char := do
  let (_, s1) ← pClass ['选', '答'] s
  pCapLetter (dropWs s1)

/-- `答案[:：]\s*([A-D])`. -/
def pSingle15 (s : List Char) : Option Char := do
  let s1 ← pLit ("答案".toList) s
  let (_, s2) ← pClass [':', '：'] s1
  pCapLetter (dropWs s2)

/-- `^([A-D])[.、，]` — anchored at the start of the string. -/
def pSingle16 : List Char → Option Char
  | a :: c :: _ =>
    if abcd.contains a && (c = '.' || c = '、' || c = '，') then some a else none
  | _ => none

/-- `\b([A-D])\b.*?正确`: the first boundary-delimited letter that is
followed, on the same line, by `正确`. -/
def searchSingle17 (up : List Char) : Option Char :=
  (List.range up.length).findSome? (fun i =>
    if abcd.contains (charAt up i) && boundaryOk up i &&
        isSubstr ("正确".toList) ((up.drop (i + 1)).takeWhile (fun x => x != '\n'))
    then some (charAt up i) else none)

/-- `选择.*?([A-D])`: the nearest letter on the same line after `选择`. -/
def p18At (s : List Char) : Option Char := do
  let s1 ← pLit ("选择".toList) s
  (s1.takeWhile (fun x => x != '\n')).find? (fun c => abcd.contains c)

/-- The `single_patterns` list, in source order, each as a whole-string
searcher. -/
def singlePatterns : List (List Char → Option Char) :=
  [searchAt pSingle1, searchAt pSingle2, searchAt pSingle3, searchAt pSingle4,
   searchAt pSingle5,
   searchAt (pConcl ("因此".toList)), searchAt (pConcl ("所以".toList)),
   searchAt (pConcl ("综上所述".toList)), searchAt (pConcl ("综合分析".toList)),
   searchAt pSingle10, searchAt pSingle11, searchAt pSingle12, searchAt pSingle13,
   searchAt pSingle14, searchAt pSingle15, pSingle16, searchSingle17,
   searchAt p18At]

/-- The single-pattern loop: first pattern with a match wins; the source
re-checks that the captured letter is in `ABCD`. -/
def stageSingle (pats : List (List Char → Option Char)) (up : List Char) :
    Option (List Char) :=
  pats.findSome? (fun p =>
    match p up with
    | some c => if abcd.contains c then some [c] else none
    | none => none)

/-! ### Stage 7: per-sentence retry -/

/-- `re.split(r'[。！？.!?]', text)`. -/
def sentenceSplit : List Char → List Char → List (List Char)
  | [], cur => [cur.reverse]
  | c :: rest, cur =>
    if c = '。' || c = '！' || c = '？' || c = '.' || c = '!' || c = '?' then
      cur.reverse :: sentenceSplit rest []
    else sentenceSplit rest (c :: cur)

/-- Scan sentences from the last to the first; within a non-blank sentence
try the first four multi patterns, then the first eight single patterns, on
the uppercased (unstripped) sentence. -/
def stageSentences (clean : List Char) : Option (List Char) :=
  (sentenceSplit clean []).reverse.findSome? (fun sent =>
    if (pyStrip sent).isEmpty then none
    else
      match stageMulti (multiPatterns.take 4) (pyUpper sent) with
      | some r => some r
      | none => stageSingle (singlePatterns.take 8) (pyUpper sent))

/-! ### Stage 8: frequency fallback -/

/-- `max(choice_counts.values())`: the dict's keys are the distinct letters in
first-occurrence order. -/
def choiceMaxCount (choices : List Char) : Nat :=
  (choices.dedup.map (fun c => choices.count c)).foldr max 0

/-- Most frequent letter of `choices`, the occurrence closest to the end
breaking ties.  Falls through when `choices` is empty. -/
def stageFrequency (choices : List Char) : Option (List Char) :=
  if choices.isEmpty then none
  else
    match choices.reverse.find? (fun c => choices.count c == choiceMaxCount choices) with
    | some c => some [c]
    | none => none

/-! ### Stage 9: ordinal-keyword fallback -/

def kwGroups : List (List (List Char) × Char) :=
  [([("第一".toList), ("首先".toList), ("最初".toList)], 'A'),
   ([("第二".toList), ("其次".toList), ("另外".toList)], 'B'),
   ([("第三".toList), ("再者".toList), ("此外".toList)], 'C'),
   ([("第四".toList), ("最后".toList), ("最终".toList)], 'D')]

def stageKeyword (low : List Char) : Option (List Char) :=
  kwGroups.findSome? (fun g =>
    if g.1.any (fun w => isSubstr w low) then some [g.2] else none)

/-! ### The cascade -/

/-- All stages before the final default, in source order.  Throughout,
`pyStrip txt` is `answer_text_clean`, `pyUpper (pyStrip txt)` is
`answer_text_upper`, `pyLower (pyStrip txt)` is `answer_lower`, and
`boundedLetters (pyUpper (pyStrip txt))` is `choices`. -/
def extractStages (txt : List Char) : Option (List Char) :=
  match (lookupExact (pyStrip txt)).map pySorted with
  | some r => some r
  | none =>
  match stageSpecific (pyUpper (pyStrip txt)) with
  | some r => some r
  | none =>
  match stageConnector (pyUpper (pyStrip txt)) (pyLower (pyStrip txt))
      (boundedLetters (pyUpper (pyStrip txt))) with
  | some r => some r
  | none =>
  match stageAllCorrect (pyUpper (pyStrip txt)) (boundedLetters (pyUpper (pyStrip txt))) with
  | some r => some r
  | none =>
  match stageMulti multiPatterns (pyUpper (pyStrip txt)) with
  | some r => some r
  | none =>
  match stagePerOption (pyUpper (pyStrip txt)) with
  | some r => some r
  | none =>
  match stageSingle singlePatterns (pyUpper (pyStrip txt)) with
  | some r => some r
  | none =>
  match stageSentences (pyStrip txt) with
  | some r => some r
  | none =>
  match stageFrequency (boundedLetters (pyUpper (pyStrip txt))) with
  | some r => some r
  | none => stageKeyword (pyLower (pyStrip txt))

/-- `extract_choice_answer`: the cascade with the documented `["A"]` default. -/
def extract_choice_answer (txt : List Char) : List Char :=
  (extractStages txt).getD ['A']

/-! ### The output contract of the extractor -/

/-- The claimed output shape: non-empty, sorted (non-strictly) ascending,
letters drawn from `{A,B,C,D}`. -/
def GoodList (r : List Char) : Prop :=
  r ≠ [] ∧ List.Sorted (· ≤ ·) r ∧ ∀ c ∈ r, c ∈ abcd

theorem pySorted_length (l : List Char) : (pySorted l).length = l.length :=
  (List.perm_insertionSort (· ≤ ·) l).length_eq

theorem mem_pySorted {c : Char} {l : List Char} : c ∈ pySorted l ↔ c ∈ l :=
  (List.perm_insertionSort (· ≤ ·) l).mem_iff

theorem goodList_pySorted {l : List Char} (h1 : l ≠ [])
    (h2 : ∀ c ∈ l, c ∈ abcd) : GoodList (pySorted l) := by
  refine ⟨?_, List.sorted_insertionSort _ l, fun c hc => h2 c (mem_pySorted.mp hc)⟩
  intro hc
  apply h1
  have := pySorted_length l
  rw [hc] at this
  exact List.length_eq_zero.mp this.symm

theorem goodList_singleton {c : Char} (h : c ∈ abcd) : GoodList [c] :=
  ⟨by simp, List.sorted_singleton c, by simpa using h⟩

theorem boundedLetters_subset {s : List Char} {c : Char}
    (h : c ∈ boundedLetters s) : c ∈ abcd := by
  obtain ⟨i, -, hi⟩ := List.mem_filterMap.mp h
  split at hi
  · rename_i hcond
    obtain rfl : charAt s i = c := by simpa using hi
    exact List.mem_of_elem_eq_true (Bool.and_elim_left hcond)
  · simp at hi

theorem mem_dedup_subset {l : List Char} (hsub : ∀ c ∈ l, c ∈ abcd) :
    ∀ c ∈ l.dedup, c ∈ abcd := fun c hc => hsub c (List.mem_dedup.mp hc)

theorem dedup_ne_nil_of_two {l : List Char} (h : 2 ≤ l.dedup.length) :
    l.dedup ≠ [] := by
  intro hc
  rw [hc] at h
  simp at h

/-! ### Per-stage output lemmas -/

theorem stageExact_good {clean r : List Char}
    (h : (lookupExact clean).map pySorted = some r) : GoodList r := by
  rw [Option.map_eq_some'] at h
  obtain ⟨v, hv, rfl⟩ := h
  unfold lookupExact at hv
  rw [Option.map_eq_some'] at hv
  obtain ⟨p, hp, rfl⟩ := hv
  have hmem := List.mem_of_find?_eq_some hp
  have htab : ∀ q ∈ exactTests, q.2 ≠ [] ∧ ∀ c ∈ q.2, c ∈ abcd := by decide
  exact goodList_pySorted (htab p hmem).1 (htab p hmem).2

theorem stageSpecific_good {up r : List Char}
    (h : stageSpecific up = some r) : GoodList r := by
  obtain ⟨p, -, hp⟩ := List.exists_of_findSome?_eq_some h
  cases hsc : searchCaps p up with
  | none => rw [hsc] at hp; simp at hp
  | some groups =>
    rw [hsc] at hp
    simp only at hp
    split at hp
    · rename_i hlen
      obtain rfl : pySorted (groups.filter (fun g => abcd.contains g)) = r := by
        simpa using hp
      refine goodList_pySorted ?_ ?_
      · intro hc
        rw [hc] at hlen
        simp at hlen
      · intro c hc
        exact List.mem_of_elem_eq_true (List.mem_filter.mp hc).2
    · simp at hp

theorem findAdjacentPair_mem {up : List Char} {p : Char × Char}
    (h : findAdjacentPair up = some p) : p.1 ∈ abcd ∧ p.2 ∈ abcd := by
  obtain ⟨o1, ho1, h1⟩ := List.exists_of_findSome?_eq_some h
  obtain ⟨o2, ho2, h2⟩ := List.exists_of_findSome?_eq_some h1
  split at h2
  · simp at h2
  · obtain ⟨cn, -, h3⟩ := List.exists_of_findSome?_eq_some h2
    split at h3
    · obtain rfl : (o1, o2) = p := by simpa using h3
      exact ⟨ho1, ho2⟩
    · simp at h3

theorem stageConnector_good {up low choices r : List Char}
    (hsub : ∀ c ∈ choices, c ∈ abcd)
    (h : stageConnector up low choices = some r) : GoodList r := by
  unfold stageConnector at h
  split at h
  · rename_i hguard
    have hlen : 2 ≤ choices.dedup.length := by
      have := (Bool.and_elim_right hguard)
      exact of_decide_eq_true this
    cases hadj : findAdjacentPair up with
    | some p =>
      rw [hadj] at h
      obtain rfl : pySorted [p.1, p.2] = r := by simpa using h
      have hm := findAdjacentPair_mem hadj
      refine goodList_pySorted (by simp) ?_
      intro c hc
      rcases List.mem_pair.mp hc with rfl | rfl
      · exact hm.1
      · exact hm.2
    | none =>
      rw [hadj] at h
      obtain rfl : pySorted choices.dedup = r := by simpa using h
      exact goodList_pySorted (dedup_ne_nil_of_two hlen) (mem_dedup_subset hsub)
  · simp at h

theorem stageAllCorrect_good {up choices r : List Char}
    (hsub : ∀ c ∈ choices, c ∈ abcd)
    (h : stageAllCorrect up choices = some r) : GoodList r := by
  unfold stageAllCorrect at h
  split at h
  · split at h
    · rename_i hlen
      obtain rfl : pySorted choices.dedup = r := by simpa using h
      exact goodList_pySorted (dedup_ne_nil_of_two hlen) (mem_dedup_subset hsub)
    · simp at h
  · simp at h

theorem stageMulti_good {up r : List Char}
    {pats : List (List Char → Option (List Char))}
    (h : stageMulti pats up = some r) : GoodList r := by
  obtain ⟨p, -, hp⟩ := List.exists_of_findSome?_eq_some h
  cases hsc : searchCaps p up with
  | none => rw [hsc] at hp; simp at hp
  | some cap =>
    rw [hsc] at hp
    simp only at hp
    split at hp
    · rename_i hguard
      obtain rfl : pySorted (cap.filter (fun c => abcd.contains c)).dedup = r := by
        simpa using hp
      have hlen : 1 < (cap.filter (fun c => abcd.contains c)).dedup.length :=
        of_decide_eq_true (Bool.and_elim_right hguard)
      refine goodList_pySorted (dedup_ne_nil_of_two hlen) ?_
      refine mem_dedup_subset ?_
      intro c hc
      exact List.mem_of_elem_eq_true (List.mem_filter.mp hc).2
    · simp at hp

theorem stagePerOption_good {up r : List Char}
    (h : stagePerOption up = some r) : GoodList r := by
  unfold stagePerOption at h
  split at h
  · rename_i hlen
    obtain rfl : pySorted (abcd.filter (fun o => optionAffirmed o up)) = r := by
      simpa using h
    refine goodList_pySorted ?_ ?_
    · intro hc
      rw [hc] at hlen
      simp at hlen
    · intro c hc
      exact List.mem_of_mem_filter hc
  · simp at h

theorem stageSingle_good {up r : List Char}
    {pats : List (List Char → Option Char)}
    (h : stageSingle pats up = some r) : GoodList r := by
  obtain ⟨p, -, hp⟩ := List.exists_of_findSome?_eq_some h
  cases hsc : p up with
  | none => rw [hsc] at hp; simp at hp
  | some c =>
    rw [hsc] at hp
    simp only at hp
    split at hp
    · rename_i hc
      obtain rfl : [c] = r := by simpa using hp
      exact goodList_singleton (List.mem_of_elem_eq_true hc)
    · simp at hp

theorem stageSentences_good {clean r : List Char}
    (h : stageSentences clean = some r) : GoodList r := by
  obtain ⟨sent, -, hp⟩ := List.exists_of_findSome?_eq_some h
  split at hp
  · simp at hp
  · cases hm : stageMulti (multiPatterns.take 4) (pyUpper sent) with
    | some r2 =>
      rw [hm] at hp
      obtain rfl : r2 = r := by simpa using hp
      exact stageMulti_good hm
    | none =>
      rw [hm] at hp
      simp only at hp
      exact stageSingle_good hp

theorem stageFrequency_good {choices r : List Char}
    (hsub : ∀ c ∈ choices, c ∈ abcd)
    (h : stageFrequency choices = some r) : GoodList r := by
  unfold stageFrequency at h
  split at h
  · simp at h
  · split at h
    · rename_i c hc
      obtain rfl : [c] = r := by simpa using h
      refine goodList_singleton ?_
      exact hsub c (List.mem_reverse.mp (List.mem_of_find?_eq_some hc))
    · simp at h

theorem stageKeyword_good {low r : List Char}
    (h : stageKeyword low = some r) : GoodList r := by
  obtain ⟨g, hg, hp⟩ := List.exists_of_findSome?_eq_some h
  split at hp
  · obtain rfl : [g.2] = r := by simpa using hp
    have : ∀ q ∈ kwGroups, q.2 ∈ abcd := by decide
    exact goodList_singleton (this g hg)
  · simp at hp

theorem extractStages_good {txt r : List Char}
    (h : extractStages txt = some r) : GoodList r := by
  unfold extractStages at h
  split at h
  · rename_i g hg
    obtain rfl : g = r := by simpa using h
    exact stageExact_good hg
  · split at h
    · rename_i g hg
      obtain rfl : g = r := by simpa using h
      exact stageSpecific_good hg
    · split at h
      · rename_i g hg
        obtain rfl : g = r := by simpa using h
        exact stageConnector_good (fun c hc => boundedLetters_subset hc) hg
      · split at h
        · rename_i g hg
          obtain rfl : g = r := by simpa using h
          exact stageAllCorrect_good (fun c hc => boundedLetters_subset hc) hg
        · split at h
          · rename_i g hg
            obtain rfl : g = r := by simpa using h
            exact stageMulti_good hg
          · split at h
            · rename_i g hg
              obtain rfl : g = r := by simpa using h
              exact stagePerOption_good hg
            · split at h
              · rename_i g hg
                obtain rfl : g = r := by simpa using h
                exact stageSingle_good hg
              · split at h
                · rename_i g hg
                  obtain rfl : g = r := by simpa using h
                  exact stageSentences_good hg
                · split at h
                  · rename_i g hg
                    obtain rfl : g = r := by simpa using h
                    exact stageFrequency_good (fun c hc => boundedLetters_subset hc) hg
                  · exact stageKeyword_good h

/-! ### Claim theorems on the extractor -/

/-- C2 (amended): every return path of the cascade yields a non-empty,
non-decreasingly sorted list of letters from `{A,B,C,D}` — but not always
duplicate-free: the conjunction-pair stage copies its two regex capture
groups directly, so when both groups name the same letter the result contains
it twice (see the counterexample). -/
theorem c2_output_contract (txt : List Char) :
    extract_choice_answer txt ≠ [] ∧
    List.Sorted (· ≤ ·) (extract_choice_answer txt) ∧
    ∀ c ∈ extract_choice_answer txt, c ∈ abcd := by
  unfold extract_choice_answer
  cases h : extractStages txt with
  | none => exact ⟨by simp, List.sorted_singleton 'A', by decide⟩
  | some r => simpa using extractStages_good h

/-- C2 counterexample: on `"选项A与A是正确的"` the conjunction-pair stage
captures the same letter twice and the extractor returns `["A", "A"]`, which
is not duplicate-free. -/
theorem c2_duplicate_letters_counterexample :
    extract_choice_answer (("选项A与A是正确的".toList)) = ['A', 'A'] ∧
    ¬ (extract_choice_answer (("选项A与A是正确的".toList))).Nodup := by
  decide

/-- C3: whenever every extraction stage fails, the extractor returns exactly
`["A"]` — never an empty list, never another letter. -/
theorem c3_default_is_A (txt : List Char) (h : extractStages txt = none) :
    extract_choice_answer txt = ['A'] := by
  unfold extract_choice_answer
  rw [h]
  rfl

/-- C3 witness: on `"这是一个陈述"` (no option letters at all) every stage
fails and the result is `["A"]`. -/
theorem c3_witness :
    extractStages (("这是一个陈述".toList)) = none ∧
    extract_choice_answer (("这是一个陈述".toList)) = ['A'] :=
  ⟨by decide, c3_default_is_A (("这是一个陈述".toList)) (by decide)⟩

/-- C4: when the trimmed input equals a key of the exact-literal override
table, the extractor returns that key's mapped letter list (sorted) before
any other stage can fire. -/
theorem c4_exact_override (txt v : List Char)
    (h : lookupExact (pyStrip txt) = some v) :
    extract_choice_answer txt = pySorted v := by
  unfold extract_choice_answer extractStages
  rw [h]
  rfl

/-- C4 witness: the exact input `"选项A和D是正确的"` maps to `["A", "D"]`. -/
theorem c4_witness :
    lookupExact (pyStrip (("选项A和D是正确的".toList))) = some ['A', 'D'] ∧
    extract_choice_answer (("选项A和D是正确的".toList)) = ['A', 'D'] := by
  constructor
  · decide
  · rw [c4_exact_override (("选项A和D是正确的".toList)) ['A', 'D'] (by decide)]
    decide

end FinanceRag
